import Mathlib

/-!
Shallow embedding of the feed-assembly pipeline of `src/main.rs` (gematom).

Conventions of the embedding:

* Strings are modelled as `List Char` (`Str`).  The Rust code byte-indexes
  strings only at positions guaranteed to be ASCII (the ten characters of a
  date prefix, a site-root prefix on paths), so char indexing is faithful
  for the inputs the theorems use.
* The filesystem is an explicit parameter: `fs : Str → Option Meta` models
  `fs::metadata` (mode bits and regular-file flag); `tf : Str → Nat` models
  `time_func(f).duration_since(UNIX_EPOCH).unwrap().as_secs()` (both `mtime`
  and `ctime` pick a `fn(&str) -> SystemTime`); `contents : Str → List Str`
  models reading a file as its list of lines.
* The `glob` crate is external; its matches are passed in as the list of
  paths (relative to the globbed directory) that the patterns matched, as
  `collect_articles` only inspects each returned path.
* Rust panics (`unwrap` on `None`/`Err`, out-of-range slicing) are modelled
  as `Option`/`Except` failure values; `.error ()` in `Except Unit` means
  the run aborts by panicking.
* `FixedDateTime` values are modelled as seconds since the Unix epoch
  (`Int`); parsing the string `YYYY-MM-DDT00:00:00 Z` yields midnight UTC
  of that Gregorian calendar date, computed by `daysFromCivil`.
* Rust's `HashMap` iteration order is unspecified (randomized per process),
  so the category map is passed as an association list in iteration order.
* `sort_by_key` is a stable sort; it is modelled by a stable insertion
  sort, which agrees with every stable sort on every input.
-/

namespace GemAtom

/-- Strings as character lists. -/
abbrev Str := List Char

/-- Conversion from Lean string literals into the model representation. -/
def str (s : String) : Str := s.data

/-- Category kinds, from `enum Category` in the source. -/
inductive Category where
  | FLAT : Category
  | TREE : Category
deriving DecidableEq, Repr

/-- A discovered article: the path paired with its category kind,
from `struct Pair(String, Category)`. -/
structure Pair where
  path : Str
  cat : Category
deriving DecidableEq, Repr

/-- Metadata of a filesystem object: permission mode bits and whether it is
a regular file (`fs::metadata`). -/
structure Meta where
  mode : Nat
  isFile : Bool
deriving DecidableEq, Repr

/-- Filesystem model: `metadata` lookup, `none` when the call fails. -/
abbrev FileSys := Str → Option Meta

/-- Model of `is_file`: true when metadata exists and reports a regular
file. -/
def is_file (fs : FileSys) (val : Str) : Bool :=
  match fs val with
  | some meta => meta.isFile
  | none => false

/-- Model of `is_world_readable`: true when metadata exists and the
other-read permission bit (octal 4) is set. -/
def is_world_readable (fs : FileSys) (val : Str) : Bool :=
  match fs val with
  | some meta => meta.mode % 8 / 4 = 1
  | none => false

/-- Path join as performed by `PathBuf::push` on a relative component when
the base does not end in a separator: one `/` is inserted. -/
def pathJoin (a b : Str) : Str := a ++ '/' :: b

/-- Last path component (Rust `Path::file_name` for the paths built here):
the characters after the last `/`. -/
def lastComponentL (p : Str) : Str := (p.reverse.takeWhile (fun c => c ≠ '/')).reverse

/-- Parent path (Rust `Path::parent` rendered back to a string): the
characters strictly before the last `/`; the empty string when there is no
separator (Rust returns `Some("")` there). -/
def parentOfL (p : Str) : Str :=
  match p.reverse.dropWhile (fun c => c ≠ '/') with
  | [] => []
  | _ :: rest => rest.reverse

/-- The reserved index file names, from `let indexes = vec![...]` in
`collect_articles`. -/
def indexNames : List Str := [str "index.gmi", str "index.gemini"]

/-- Model of `collect_articles(name, typ, root)`.  `fulldir` is
`root/name`; `matched` is the list of paths, relative to `fulldir`, that
the glob patterns returned (`*.gmi`/`*.gemini` for `FLAT`,
`**/*.gmi`/`**/*.gemini` for `TREE`), in glob order.  The function keeps a
match exactly under the source's condition on file name, category kind and
relative path, then post-filters for world-readability. -/
def collect_articles (typ : Category) (fulldir : Str) (matched : List Str)
    (fs : FileSys) : List Pair :=
  (matched.filterMap (fun rel =>
    if (¬ lastComponentL (pathJoin fulldir rel) ∈ indexNames
          ∧ typ = Category.FLAT)
        ∨ (lastComponentL (pathJoin fulldir rel) ∈ indexNames
          ∧ typ = Category.TREE ∧ rel.contains '/')
    then some { path := pathJoin fulldir rel, cat := typ }
    else none)).filter (fun e => is_world_readable fs e.path)

/-- Whitespace trimming at both ends (Rust `str::trim`). -/
def trimStr (s : Str) : Str :=
  ((s.dropWhile Char.isWhitespace).reverse.dropWhile Char.isWhitespace).reverse

/-- Whether a line starts with `#` (Rust `buf.starts_with("#")`). -/
def startsHash : Str → Bool
  | '#' :: _ => true
  | _ => false

/-- Model of the marker-stripping loop of `extract_first_heading`:
`while buf.chars().nth(0).unwrap() == '#' { buf = &buf[1..]; }`.
Returns `none` when the loop inspects an exhausted buffer, which is the
`unwrap` panic on a line consisting solely of `#` characters. -/
def stripHashes : Str → Option Str
  | [] => none
  | c :: cs => if c = '#' then stripHashes cs else some (c :: cs)

/-- Model of `extract_first_heading(filename, default)`: scan the lines in
order; on the first line starting with `#`, strip the leading markers and
trim; otherwise fall through to the default.  `none` models the panic
inside the stripping loop. -/
def extract_first_heading (lines : List Str) (dflt : Str) : Option Str :=
  match lines with
  | [] => some dflt
  | l :: ls =>
    if startsHash l then
      match stripHashes l with
      | none => none
      | some buf => some (trimStr buf)
    else extract_first_heading ls dflt

/-- Decimal digit character for a value below ten. -/
def digitChar (n : Nat) : Char := Char.ofNat (48 + n)

/-- Numeric value of a decimal digit character. -/
def toDigit (c : Char) : Nat := c.toNat - 48

/-- Model of `RFC3339_RE.is_match`, the anchored regex
`^\d\d\d\d-\d\d-\d\d` (written `^\d{4}-\d{2}-\d{2}` in the source):
the first ten characters exist and have the date shape.  Digits are ASCII
in every input considered here. -/
def rfc3339Match (s : Str) : Bool :=
  match s with
  | a :: b :: c :: d :: e :: f :: g :: h :: i :: j :: _ =>
    a.isDigit && b.isDigit && c.isDigit && d.isDigit && e = '-' &&
    f.isDigit && g.isDigit && h = '-' && i.isDigit && j.isDigit
  | _ => false

/-- Leap-year predicate of the proleptic Gregorian calendar. -/
def isLeap (y : Nat) : Bool := (y % 4 = 0 && y % 100 ≠ 0) || y % 400 = 0

/-- Number of days in a month of the Gregorian calendar. -/
def daysInMonth (y m : Nat) : Nat :=
  if m = 2 then (if isLeap y then 29 else 28)
  else if m = 4 ∨ m = 6 ∨ m = 9 ∨ m = 11 then 30
  else 31

/-- Days from the Unix epoch (1970-01-01) to the civil date `y-m-d`,
the standard era-based conversion (computed in `Nat` by shifting the year
by 400, then recentred). -/
def daysFromCivil (y m d : Nat) : Int :=
  let yy : Nat := if m ≤ 2 then y + 399 else y + 400
  let era := yy / 400
  let yoe := yy - era * 400
  let mp := (m + 9) % 12
  let doy := (153 * mp + 2) / 5 + d - 1
  let doe := yoe * 365 + yoe / 4 - yoe / 100 + doy
  (((era * 146097 + doe : Nat)) : Int) - 865565

/-- Seconds since the Unix epoch of midnight UTC on the date `y-m-d`. -/
def dateMidnightUtc (y m d : Nat) : Int := 86400 * daysFromCivil y m d

/-- Model of parsing the string built by
`format!("{}{}", &basename[0..10], "T00:00:00 Z")` as a `FixedDateTime`:
the chrono parser accepts it exactly when the ten-character prefix is a
valid calendar date, and then denotes midnight UTC on that date.  `none`
models the parse failure, which the source turns into a panic via
`unwrap`. -/
def parseDateMidnight (s : Str) : Option Int :=
  match s with
  | c1 :: c2 :: c3 :: c4 :: _ :: c6 :: c7 :: _ :: c9 :: c10 :: _ =>
    let y := toDigit c1 * 1000 + toDigit c2 * 100 + toDigit c3 * 10 + toDigit c4
    let m := toDigit c6 * 10 + toDigit c7
    let d := toDigit c9 * 10 + toDigit c10
    if 1 ≤ m ∧ m ≤ 12 ∧ 1 ≤ d ∧ d ≤ daysInMonth y m then
      some (dateMidnightUtc y m d)
    else none
  | _ => none

/-- The name whose leading characters are checked for a date, from the
`match cat` at the head of `get_update_time`: the file name for `FLAT`,
the parent directory name for `TREE`. -/
def dateSourceName (filepath : Str) (cat : Category) : Str :=
  match cat with
  | Category.FLAT => lastComponentL filepath
  | Category.TREE => lastComponentL (parentOfL filepath)

/-- Model of `get_update_time(filepath, time_func, cat)`: when the date
source name starts with the date regex, parse it (panic on an invalid
calendar date); otherwise fall back to `time_func` on the file, converted
to whole seconds since the epoch at offset UTC. -/
def get_update_time (filepath : Str) (tf : Str → Nat) (cat : Category) :
    Option Int :=
  if rfc3339Match (dateSourceName filepath cat) then
    parseDateMidnight (dateSourceName filepath cat)
  else some ((tf filepath : Nat) : Int)

/-- Separator characters skipped after a date prefix:
`"_-".contains(ch) || ch.is_whitespace()`. -/
def isSepChar (c : Char) : Bool := c = '_' || c = '-' || c.isWhitespace

/-- Model of the index-searching loop in `remove_rfc3339_date`: the offset
(rell to position 10) of the first non-separator character, `none` when
the iterator is exhausted first. -/
def firstNonSep : Str → Nat → Option Nat
  | [], _ => none
  | c :: rest, i => if isSepChar c then firstNonSep rest (i + 1) else some i

/-- Model of `remove_rfc3339_date(filename)`: when the name starts with the
date shape, drop through the first run of separator characters after
position 10 — but when the tail consists only of separators, the loop
falls to its `else break 10` arm and only the ten date characters are
dropped. -/
def remove_rfc3339_date (s : Str) : Str :=
  if rfc3339Match s then
    match firstNonSep (s.drop 10) 0 with
    | some i => s.drop (10 + i)
    | none => s.drop 10
  else s

/-- Underscore-to-space substitution, Rust `str::replace("_", " ")` for the
single-character pattern. -/
def replaceUnderscores (s : Str) : Str :=
  s.map (fun c => if c = '_' then ' ' else c)

/-- Model of Rust `Path::file_stem` on the paths used here: the file name
up to its final dot, the whole name when there is no dot or when the only
dot is the leading character. -/
def fileStemOf (p : Str) : Str :=
  let n := lastComponentL p
  match n.reverse.dropWhile (fun c => c ≠ '.') with
  | [] => n
  | _ :: rest => if rest.isEmpty then n else rest.reverse

/-- The default entry title computed in `populate_entry_from_file`
(lines 343-357): file stem for `FLAT`, parent directory name for `TREE`,
date prefix removed, underscores cleaned when requested. -/
def defaultTitleOf (cat : Category) (filepath : Str) (clean : Bool) : Str :=
  let base := match cat with
    | Category.FLAT => fileStemOf filepath
    | Category.TREE => lastComponentL (parentOfL filepath)
  let dt := remove_rfc3339_date base
  if clean then replaceUnderscores dt else dt

/-- URLs of the fixed scheme `gemini` (the CLI validator rejects every
other scheme): an authority and a path.  Queries, fragments and dot
segments never occur in the references this program joins. -/
structure Url where
  host : Str
  path : Str
deriving DecidableEq, Repr

/-- Serialization of a URL, Rust `Url::as_str`. -/
def Url.render (u : Url) : Str := str "gemini://" ++ u.host ++ u.path

/-- Whether a reference string is authority-root-relative. -/
def startsWithSlash : Str → Bool
  | [] => false
  | c :: _ => c == '/'

/-- The directory part of a URL path for reference merging (RFC 3986
section 5.3, as implemented by the `url` crate): everything up to and
including the last slash, or the root when the path has none. -/
def dirOf (p : Str) : Str :=
  match p.reverse.dropWhile (fun c => c ≠ '/') with
  | [] => ['/']
  | l => l.reverse

/-- Model of `Url::join` for plain path references: a reference starting
with `/` replaces the whole path, otherwise it is appended to the
directory of the base path. -/
def urlJoin (base : Url) (ref : Str) : Url :=
  if startsWithSlash ref then { base with path := ref }
  else { base with path := dirOf base.path ++ ref }

/-- The URL computed at the head of `populate_entry_from_file`
(lines 327-335): join the file name when the file's parent is the site
root, otherwise join the byte slice `&filepath[root.len()..]`. -/
def entryUrlOfFile (filepath root : Str) (base : Url) : Url :=
  if parentOfL filepath = root then urlJoin base (lastComponentL filepath)
  else urlJoin base (filepath.drop root.length)

/-- Modelled from the spec: found in the words of the claim, not in the
source — "the entry's canonical link is the base feed URL resolved
against the file's path relative to the site root, using standard
URL-join semantics".  The path of the file relative to the site root
carries no leading separator; it is joined as a relative reference.
This definition exists to be compared against `entryUrlOfFile`. -/
def specEntryUrl (filepath root : Str) (base : Url) : Url :=
  urlJoin base ((filepath.drop root.length).dropWhile (fun c => c = '/'))

/-- A feed entry as populated by `populate_entry_from_file`: id, one
alternate link, title, updated instant. -/
structure Entry where
  id : Str
  linkHref : Str
  linkRel : Str
  title : Str
  updated : Int
deriving DecidableEq, Repr

/-- Model of `populate_entry_from_file`: compute the canonical URL, the
updated time (may panic), the default title, and the title from the first
heading of the file's contents (may panic). -/
def populate_entry_from_file (filepath : Str) (base : Url) (tf : Str → Nat)
    (root : Str) (cat : Category) (clean : Bool)
    (contents : Str → List Str) : Option Entry :=
  match get_update_time filepath tf cat with
  | none => none
  | some upd =>
    match extract_first_heading (contents filepath)
        (defaultTitleOf cat filepath clean) with
    | none => none
    | some title =>
      some { id := (entryUrlOfFile filepath root base).render,
             linkHref := (entryUrlOfFile filepath root base).render,
             linkRel := str "alternate", title := title, updated := upd }

/-- Model of `get_feed_title(dir, clean)`: first heading of the first
world-readable regular index file under `dir` (checking `index.gemini`
then `index.gmi`), with the cleaned directory name as the default and as
the fallback. -/
def get_feed_title (dir : Str) (clean : Bool) (fs : FileSys)
    (contents : Str → List Str) : Option Str :=
  let dflt := lastComponentL dir
  let dflt := if clean then replaceUnderscores dflt else dflt
  let p1 := pathJoin dir (str "index.gemini")
  let p2 := pathJoin dir (str "index.gmi")
  if is_file fs p1 && is_world_readable fs p1 then
    extract_first_heading (contents p1) dflt
  else if is_file fs p2 && is_world_readable fs p2 then
    extract_first_heading (contents p2) dflt
  else some dflt

/-- Sort key of `get_files`: the raw `time_func` seconds of the file. -/
def keyOf (tf : Str → Nat) (p : Pair) : Nat := tf p.path

/-- Stable insertion of one element into a list already sorted by key:
the element goes before the first position whose key is not smaller, so
equal keys keep their original relative order. -/
def insertByKey (tf : Str → Nat) (x : Pair) : List Pair → List Pair
  | [] => [x]
  | y :: ys =>
    if keyOf tf y < keyOf tf x then y :: insertByKey tf x ys
    else x :: y :: ys

/-- Model of `files.sort_by_key(...)` (a stable ascending sort): stable
insertion sort, which coincides with every stable sort on every input. -/
def sortByKey (tf : Str → Nat) (l : List Pair) : List Pair :=
  l.foldr (insertByKey tf) []

/-- The selection core of `get_files` after the per-category candidates
have been merged: stable-sort ascending by `time_func` whole seconds,
reverse, return `None` when empty, otherwise slice `[0..n]` — which
panics (`Except.error`) when fewer than `n` files exist. -/
def selectFiles (tf : Str → Nat) (n : Nat) (files : List Pair) :
    Except Unit (Option (List Pair)) :=
  let sorted := (sortByKey tf files).reverse
  if sorted.length = 0 then Except.ok none
  else if n ≤ sorted.length then Except.ok (some (sorted.take n))
  else Except.error ()

/-- The merge loop of `get_files`: extend the candidate list with each
category's articles, in the map's iteration order.  `globsOf` gives the
glob matches (relative paths) for each category directory. -/
def mergedArticles (root : Str) (cats : List (Str × Category))
    (globsOf : Str → List Str) (fs : FileSys) : List Pair :=
  cats.flatMap (fun ct =>
    collect_articles ct.2 (pathJoin root ct.1) (globsOf ct.1) fs)

/-- Model of `get_files(root, categories, time_func, n)`. -/
def get_files (root : Str) (cats : List (Str × Category))
    (globsOf : Str → List Str) (fs : FileSys) (tf : Str → Nat) (n : Nat) :
    Except Unit (Option (List Pair)) :=
  selectFiles tf n (mergedArticles root cats globsOf fs)

/-- An atom author, Rust `Person`. -/
structure Person where
  name : Str
  email : Option Str
deriving DecidableEq, Repr

/-- The assembled feed document with every field `build_feed` sets.  A
feed whose entries were never set keeps the defaults: empty entry list
and epoch updated time. -/
structure FeedDoc where
  id : Str
  title : Str
  subtitle : Option Str
  generatorValue : Str
  generatorUri : Str
  generatorVersion : Str
  rights : Str
  authors : List Person
  selfLinkHref : Str
  altLinkHref : Str
  updated : Int
  entries : List Entry
deriving DecidableEq, Repr

/-- Program version constant. -/
def VERSION : Str := str "1.1.1"

/-- The entry-population loop of `build_feed`, in selection order; `none`
models a panic while populating any entry. -/
def entriesFor (files : List Pair) (base : Url) (tf : Str → Nat)
    (root : Str) (clean : Bool) (contents : Str → List Str) :
    Option (List Entry) :=
  match files with
  | [] => some []
  | p :: ps =>
    match populate_entry_from_file p.path base tf root p.cat clean contents with
    | none => none
    | some e =>
      (entriesFor ps base tf root clean contents).map (fun es => e :: es)

/-- Title resolution at the head of `build_feed`: the explicit override
when given, otherwise `get_feed_title` (whose heading extraction may
panic). -/
def feedTitleResolved (root : Str) (clean : Bool) (fs : FileSys)
    (contents : Str → List Str) (titleOpt : Option Str) : Option Str :=
  match titleOpt with
  | some t => some t
  | none => get_feed_title root clean fs contents

/-- Model of `build_feed`.  `Except.error ()` is a panic; `Except.ok none`
means the function returned without writing a file; `Except.ok (some d)`
means the document `d` was written to `<root>/<output>`.  The verbose
printing and the computation of the served feed URL
(`base_url.join(output)`) produce no part of the document and are
omitted. -/
def build_feed (root : Str) (cats : List (Str × Category))
    (globsOf : Str → List Str) (fs : FileSys) (contents : Str → List Str)
    (tf : Str → Nat) (base : Url) (n : Nat)
    (titleOpt subtitleOpt authorOpt emailOpt : Option Str) (clean : Bool) :
    Except Unit (Option FeedDoc) :=
  match feedTitleResolved root clean fs contents titleOpt with
  | none => Except.error ()
  | some title =>
    match get_files root cats globsOf fs tf n with
    | Except.error () => Except.error ()
    | Except.ok none => Except.ok none
    | Except.ok (some files) =>
      match entriesFor files base tf root clean contents with
      | none => Except.error ()
      | some entries =>
        let person : Person := { name := authorOpt.getD [], email := emailOpt }
        let authors := if person.name ≠ [] ∨ person.email ≠ none
          then [person] else []
        let updated := match entries with
          | [] => (0 : Int)
          | e :: _ => e.updated
        Except.ok (some {
          id := base.render, title := title, subtitle := subtitleOpt,
          generatorValue := str "gematom, an atom feed generator for gemini.",
          generatorUri := str "https://github.com/drtutut/gematom",
          generatorVersion := VERSION,
          rights := str "© Éric Würbel 2021",
          authors := authors,
          selfLinkHref := base.render, altLinkHref := base.render,
          updated := updated, entries := entries })

/-- The document a `build_feed` outcome wrote, when it wrote one. -/
def writtenDoc (r : Except Unit (Option FeedDoc)) : Option FeedDoc :=
  match r with
  | Except.ok (some d) => some d
  | _ => none

/-- Inserting an element permutes with consing it. -/
theorem insertByKey_perm (tf : Str → Nat) (x : Pair) (l : List Pair) :
    List.Perm (insertByKey tf x l) (x :: l) := by
  induction l with
  | nil => exact List.Perm.refl _
  | cons y ys ih =>
    unfold insertByKey
    by_cases h : keyOf tf y < keyOf tf x
    · rw [if_pos h]
      exact (ih.cons y).trans (List.Perm.swap x y ys)
    · rw [if_neg h]

/-- The stable sort permutes its input. -/
theorem sortByKey_perm (tf : Str → Nat) (l : List Pair) :
    List.Perm (sortByKey tf l) l := by
  induction l with
  | nil => exact List.Perm.refl _
  | cons a l ih => exact (insertByKey_perm tf a (sortByKey tf l)).trans (ih.cons a)

/-- Insertion preserves ascending sortedness by key. -/
theorem insertByKey_sorted (tf : Str → Nat) (x : Pair) {l : List Pair}
    (h : l.Pairwise (fun a b => keyOf tf a ≤ keyOf tf b)) :
    (insertByKey tf x l).Pairwise (fun a b => keyOf tf a ≤ keyOf tf b) := by
  induction l with
  | nil => simp [insertByKey]
  | cons y ys ih =>
    rcases List.pairwise_cons.mp h with ⟨hy, hys⟩
    unfold insertByKey
    by_cases hlt : keyOf tf y < keyOf tf x
    · rw [if_pos hlt]
      refine List.pairwise_cons.mpr ⟨?_, ih hys⟩
      intro z hz
      have hz2 : z ∈ x :: ys := (insertByKey_perm tf x ys).mem_iff.mp hz
      rcases List.mem_cons.mp hz2 with rfl | hz3
      · exact Nat.le_of_lt hlt
      · exact hy z hz3
    · rw [if_neg hlt]
      have hxy : keyOf tf x ≤ keyOf tf y := Nat.le_of_not_lt hlt
      refine List.pairwise_cons.mpr ⟨?_, h⟩
      intro z hz
      rcases List.mem_cons.mp hz with rfl | hz2
      · exact hxy
      · exact hxy.trans (hy z hz2)

/-- The stable sort produces a list ascending by key. -/
theorem sortByKey_sorted (tf : Str → Nat) (l : List Pair) :
    (sortByKey tf l).Pairwise (fun a b => keyOf tf a ≤ keyOf tf b) := by
  induction l with
  | nil => exact List.Pairwise.nil
  | cons a l ih => exact insertByKey_sorted tf a ih

/-- Two ascending-by-key permutations of each other with pairwise distinct
keys are equal: the sorted order is canonical when no keys tie. -/
theorem sorted_perm_nodup_key_eq (tf : Str → Nat) :
    ∀ l₁ l₂ : List Pair, List.Perm l₁ l₂ →
      l₁.Pairwise (fun a b => keyOf tf a ≤ keyOf tf b) →
      l₂.Pairwise (fun a b => keyOf tf a ≤ keyOf tf b) →
      (l₁.map (keyOf tf)).Nodup → l₁ = l₂ := by
  intro l₁
  induction l₁ with
  | nil =>
    intro l₂ hp _ _ _
    exact (List.Perm.eq_nil hp.symm).symm
  | cons a t₁ ih =>
    intro l₂ hp h₁ h₂ hnd
    cases l₂ with
    | nil => exact absurd hp.eq_nil (by simp)
    | cons b t₂ =>
      by_cases hab : a = b
      · subst hab
        have ht : t₁ = t₂ := by
          have hndt : (t₁.map (keyOf tf)).Nodup := by
            rw [List.map_cons] at hnd
            exact (List.nodup_cons.mp hnd).2
          exact ih t₂ hp.cons_inv h₁.of_cons h₂.of_cons hndt
        rw [ht]
      · exfalso
        have hbt₁ : b ∈ t₁ := by
          have hmem : b ∈ a :: t₁ := hp.mem_iff.mpr (List.mem_cons_self b t₂)
          rcases List.mem_cons.mp hmem with h | h
          · exact absurd h.symm hab
          · exact h
        have hat₂ : a ∈ t₂ := by
          have hmem : a ∈ b :: t₂ := hp.mem_iff.mp (List.mem_cons_self a t₁)
          rcases List.mem_cons.mp hmem with h | h
          · exact absurd h hab
          · exact h
        have hle1 : keyOf tf a ≤ keyOf tf b := (List.pairwise_cons.mp h₁).1 b hbt₁
        have hle2 : keyOf tf b ≤ keyOf tf a := (List.pairwise_cons.mp h₂).1 a hat₂
        have heq : keyOf tf a = keyOf tf b := Nat.le_antisymm hle1 hle2
        have hmem2 : keyOf tf b ∈ t₁.map (keyOf tf) := List.mem_map_of_mem _ hbt₁
        rw [← heq] at hmem2
        rw [List.map_cons] at hnd
        exact (List.nodup_cons.mp hnd).1 hmem2

/-- Sorting is invariant under permutation of the input when all keys are
pairwise distinct. -/
theorem sortByKey_eq_of_perm (tf : Str → Nat) {l₁ l₂ : List Pair}
    (hp : List.Perm l₁ l₂) (hnd : (l₁.map (keyOf tf)).Nodup) :
    sortByKey tf l₁ = sortByKey tf l₂ := by
  refine sorted_perm_nodup_key_eq tf _ _
    ((sortByKey_perm tf l₁).trans (hp.trans (sortByKey_perm tf l₂).symm))
    (sortByKey_sorted tf l₁) (sortByKey_sorted tf l₂) ?_
  exact ((sortByKey_perm tf l₁).map (keyOf tf)).nodup_iff.mpr hnd

/-- C1: evaluation of the selection core at the failing input — a single
discovered candidate and the default limit 10.  The claim (and the spec)
say all candidates are kept when fewer exist than the limit, but the
slice `&files[0..n]` is out of range and the program panics. -/
theorem C1_selector_panics_on_few_files :
    selectFiles (fun _ => 0) 10
        [{ path := str "r/c/a.gmi", cat := Category.FLAT }]
      = Except.error () := rfl

/-- C2 counterexample: with a flat file whose name carries the date
2100-01-01 but whose filesystem time is 0, and a second file with
filesystem time 100, the selector keeps the second file — yet the first
file's resolved updated time (the one its entry would carry) is the far
larger 4102444800.  Selection therefore does not use the entry's resolved
updated time, contradicting the claim. -/
theorem C2_selection_ignores_date_in_name :
    selectFiles
        (fun p => if p = str "r/c/2100-01-01-a.gmi" then 0 else 100) 1
        [{ path := str "r/c/2100-01-01-a.gmi", cat := Category.FLAT },
         { path := str "r/c/b.gmi", cat := Category.FLAT }]
      = Except.ok (some [{ path := str "r/c/b.gmi", cat := Category.FLAT }])
    ∧ get_update_time (str "r/c/2100-01-01-a.gmi")
        (fun p => if p = str "r/c/2100-01-01-a.gmi" then 0 else 100)
        Category.FLAT = some 4102444800
    ∧ get_update_time (str "r/c/b.gmi")
        (fun p => if p = str "r/c/2100-01-01-a.gmi" then 0 else 100)
        Category.FLAT = some 100
    ∧ (100 : Int) < 4102444800 := by
  exact ⟨rfl, rfl, rfl, by decide⟩

/-- C3 counterexample: one readable candidate and limit 0.  `get_files`
returns `Some([])`, so zero entries are selected, yet `build_feed` falls
through to the write: a document with an empty entry list is produced,
contradicting the claim that no output file is written then. -/
theorem C3_limit_zero_writes_empty_document :
    Option.map FeedDoc.entries (writtenDoc (build_feed (str "r")
        [(str "c", Category.FLAT)] (fun _ => [str "a.gmi"])
        (fun p => if p = str "r/c/a.gmi"
          then some { mode := 420, isFile := true } else none)
        (fun _ => []) (fun _ => 0)
        { host := str "example.org", path := str "/" } 0
        (some (str "T")) none none none false))
      = some [] := rfl

/-- C4 counterexample: a directory named `d.gmi` with mode 755 (so the
other-read bit is set but it is not a regular file) is returned by
discovery: `collect_articles` filters only on world-readability and never
checks `is_file`, contradicting the claim's regular-file part. -/
theorem C4_directory_candidate_returned :
    collect_articles Category.FLAT (str "r/c") [str "d.gmi"]
        (fun p => if p = str "r/c/d.gmi"
          then some { mode := 493, isFile := false } else none)
      = [{ path := str "r/c/d.gmi", cat := Category.FLAT }]
    ∧ is_file
        (fun p => if p = str "r/c/d.gmi"
          then some { mode := 493, isFile := false } else none)
        (str "r/c/d.gmi") = false := ⟨rfl, rfl⟩

/-- C5 counterexample: on a file whose first line is `###` (a line
beginning with `#` that consists solely of markers), the stripping loop
calls `unwrap` on an exhausted iterator and the program panics instead of
returning the stripped (empty) text the claim describes. -/
theorem C5_all_hash_heading_panics :
    extract_first_heading [str "###", str "x"] (str "dflt") = none := rfl

/-- C7 counterexample: with base URL `gemini://example.org/sub/` and a
file at `<root>/news/post.gmi`, the code joins the byte-slice
`/news/post.gmi` (leading separator), which replaces the whole base path;
joining the file's root-relative path `news/post.gmi` per the claim's
words keeps `/sub/`.  The two URLs differ, so the claim's description of
the link is false at this input. -/
theorem C7_base_path_dropped :
    entryUrlOfFile (str "/site/news/post.gmi") (str "/site")
        { host := str "example.org", path := str "/sub/" }
      ≠ specEntryUrl (str "/site/news/post.gmi") (str "/site")
        { host := str "example.org", path := str "/sub/" }
    ∧ (entryUrlOfFile (str "/site/news/post.gmi") (str "/site")
        { host := str "example.org", path := str "/sub/" }).render
      = str "gemini://example.org/news/post.gmi"
    ∧ (specEntryUrl (str "/site/news/post.gmi") (str "/site")
        { host := str "example.org", path := str "/sub/" }).render
      = str "gemini://example.org/sub/news/post.gmi" := by
  exact ⟨by decide, rfl, rfl⟩

/-- C8 counterexample: two categories holding one article each with equal
`time_func` seconds.  Iterating the category map in the two possible
orders (Rust's `HashMap` order is randomized per process, so two runs may
well differ) produces documents whose entry lists are in different
orders: assembly is not a function of configuration and filesystem state
alone. -/
theorem C8_category_order_changes_output :
    Option.map FeedDoc.entries (writtenDoc (build_feed (str "r")
        [(str "c1", Category.FLAT), (str "c2", Category.FLAT)]
        (fun c => if c = str "c1" then [str "a.gmi"] else [str "b.gmi"])
        (fun _ => some { mode := 420, isFile := true })
        (fun _ => []) (fun _ => 5)
        { host := str "example.org", path := str "/" } 2
        (some (str "T")) none none none false))
      ≠ Option.map FeedDoc.entries (writtenDoc (build_feed (str "r")
        [(str "c2", Category.FLAT), (str "c1", Category.FLAT)]
        (fun c => if c = str "c1" then [str "a.gmi"] else [str "b.gmi"])
        (fun _ => some { mode := 420, isFile := true })
        (fun _ => []) (fun _ => 5)
        { host := str "example.org", path := str "/" } 2
        (some (str "T")) none none none false)) := by decide

/-- C2 (amended): when at least `n` candidates exist, the selector keeps
exactly `n` of them, ordered descending by the raw `time_func` whole
seconds (the sort key of `get_files` — not the entry's resolved updated
time), and every kept candidate's key is at least every dropped
candidate's key. -/
theorem C2_selection_by_time_func (tf : Str → Nat) (n : Nat)
    (files : List Pair) (h0 : files ≠ []) (hn : n ≤ files.length) :
    ∃ out rest,
      selectFiles tf n files = Except.ok (some out)
      ∧ out.length = n
      ∧ List.Perm (out ++ rest) files
      ∧ out.Pairwise (fun a b => keyOf tf b ≤ keyOf tf a)
      ∧ ∀ a ∈ out, ∀ b ∈ rest, keyOf tf b ≤ keyOf tf a := by
  have hperm : List.Perm (sortByKey tf files).reverse files :=
    (sortByKey tf files).reverse_perm.trans (sortByKey_perm tf files)
  have hlen : (sortByKey tf files).reverse.length = files.length :=
    hperm.length_eq
  have hn2 : n ≤ (sortByKey tf files).reverse.length := by rw [hlen]; exact hn
  have hne : ¬ (sortByKey tf files).reverse.length = 0 := by
    rw [hlen]
    intro h
    exact h0 (List.length_eq_zero.mp h)
  have hdesc : (sortByKey tf files).reverse.Pairwise
      (fun a b => keyOf tf b ≤ keyOf tf a) :=
    List.pairwise_reverse.mpr (sortByKey_sorted tf files)
  refine ⟨(sortByKey tf files).reverse.take n,
    (sortByKey tf files).reverse.drop n, ?_, ?_, ?_, ?_, ?_⟩
  · unfold selectFiles
    rw [if_neg hne, if_pos hn2]
  · rw [List.length_take]
    exact Nat.min_eq_left hn2
  · rw [List.take_append_drop]
    exact hperm
  · exact hdesc.sublist (List.take_sublist n _)
  · have hsplit : ((sortByKey tf files).reverse.take n
        ++ (sortByKey tf files).reverse.drop n).Pairwise
        (fun a b => keyOf tf b ≤ keyOf tf a) := by
      rw [List.take_append_drop]
      exact hdesc
    exact (List.pairwise_append.mp hsplit).2.2

/-- C2 witness: a concrete instance of the amended selection theorem. -/
theorem C2_selection_by_time_func_witness :
    (([{ path := str "a", cat := Category.FLAT },
       { path := str "bbb", cat := Category.FLAT }] : List Pair) ≠ []
     ∧ 1 ≤ ([{ path := str "a", cat := Category.FLAT },
       { path := str "bbb", cat := Category.FLAT }] : List Pair).length)
    ∧ ∃ out rest,
      selectFiles (fun p => p.length) 1
          [{ path := str "a", cat := Category.FLAT },
           { path := str "bbb", cat := Category.FLAT }]
        = Except.ok (some out)
      ∧ out.length = 1
      ∧ List.Perm (out ++ rest)
          [{ path := str "a", cat := Category.FLAT },
           { path := str "bbb", cat := Category.FLAT }]
      ∧ out.Pairwise (fun a b =>
          keyOf (fun p => p.length) b ≤ keyOf (fun p => p.length) a)
      ∧ ∀ a ∈ out, ∀ b ∈ rest,
          keyOf (fun p => p.length) b ≤ keyOf (fun p => p.length) a :=
  ⟨⟨by decide, by decide⟩,
   C2_selection_by_time_func (fun p => p.length) 1
     [{ path := str "a", cat := Category.FLAT },
      { path := str "bbb", cat := Category.FLAT }] (by decide) (by decide)⟩

/-- C8 (amended): assembly is a deterministic function of the validated
configuration, the filesystem state and the category-map iteration order;
and whenever all merged candidates have pairwise distinct `time_func`
keys, the iteration order does not matter either, so two runs produce
identical documents.  (Only equal whole-second keys — the counterexample
situation — let the randomized `HashMap` order show through.) -/
theorem C8_deterministic_modulo_ties (root : Str)
    (cats₁ cats₂ : List (Str × Category)) (globsOf : Str → List Str)
    (fs : FileSys) (contents : Str → List Str) (tf : Str → Nat) (base : Url)
    (n : Nat) (titleOpt subtitleOpt authorOpt emailOpt : Option Str)
    (clean : Bool) (hperm : List.Perm cats₁ cats₂)
    (hnd : ((mergedArticles root cats₁ globsOf fs).map (keyOf tf)).Nodup) :
    build_feed root cats₁ globsOf fs contents tf base n
        titleOpt subtitleOpt authorOpt emailOpt clean
      = build_feed root cats₂ globsOf fs contents tf base n
        titleOpt subtitleOpt authorOpt emailOpt clean := by
  have hm : List.Perm (mergedArticles root cats₁ globsOf fs)
      (mergedArticles root cats₂ globsOf fs) := hperm.flatMap_right _
  have hsort : sortByKey tf (mergedArticles root cats₁ globsOf fs)
      = sortByKey tf (mergedArticles root cats₂ globsOf fs) :=
    sortByKey_eq_of_perm tf hm hnd
  have hget : get_files root cats₁ globsOf fs tf n
      = get_files root cats₂ globsOf fs tf n := by
    unfold get_files selectFiles
    rw [hsort]
  unfold build_feed
  rw [hget]

/-- C8 witness: two category orders with globally distinct file times
give equal documents. -/
theorem C8_deterministic_modulo_ties_witness :
    (List.Perm [(str "c1", Category.FLAT), (str "c2", Category.FLAT)]
        [(str "c2", Category.FLAT), (str "c1", Category.FLAT)]
     ∧ ((mergedArticles (str "r")
          [(str "c1", Category.FLAT), (str "c2", Category.FLAT)]
          (fun c => if c = str "c1" then [str "a.gmi"] else [str "bb.gmi"])
          (fun _ => some { mode := 420, isFile := true })).map
            (keyOf (fun p => p.length))).Nodup)
    ∧ build_feed (str "r")
        [(str "c1", Category.FLAT), (str "c2", Category.FLAT)]
        (fun c => if c = str "c1" then [str "a.gmi"] else [str "bb.gmi"])
        (fun _ => some { mode := 420, isFile := true }) (fun _ => [])
        (fun p => p.length) { host := str "example.org", path := str "/" }
        2 (some (str "T")) none none none false
      = build_feed (str "r")
        [(str "c2", Category.FLAT), (str "c1", Category.FLAT)]
        (fun c => if c = str "c1" then [str "a.gmi"] else [str "bb.gmi"])
        (fun _ => some { mode := 420, isFile := true }) (fun _ => [])
        (fun p => p.length) { host := str "example.org", path := str "/" }
        2 (some (str "T")) none none none false :=
  ⟨⟨by decide, by decide⟩,
   C8_deterministic_modulo_ties (str "r")
     [(str "c1", Category.FLAT), (str "c2", Category.FLAT)]
     [(str "c2", Category.FLAT), (str "c1", Category.FLAT)]
     (fun c => if c = str "c1" then [str "a.gmi"] else [str "bb.gmi"])
     (fun _ => some { mode := 420, isFile := true }) (fun _ => [])
     (fun p => p.length) { host := str "example.org", path := str "/" }
     2 (some (str "T")) none none none false (by decide) (by decide)⟩

/-- C3 (amended): when the merged candidate set is empty (and the feed
title resolves without panicking), `build_feed` returns without writing
any file, successfully.  The part of the claim about a limit of 0 with a
nonempty candidate set is false: see the counterexample, which exhibits a
written document with an empty entry list. -/
theorem C3_no_candidates_no_write (root : Str)
    (cats : List (Str × Category)) (globsOf : Str → List Str) (fs : FileSys)
    (contents : Str → List Str) (tf : Str → Nat) (base : Url) (n : Nat)
    (titleOpt subtitleOpt authorOpt emailOpt : Option Str) (clean : Bool)
    (htitle : (feedTitleResolved root clean fs contents titleOpt).isSome
      = true)
    (hmerged : mergedArticles root cats globsOf fs = []) :
    build_feed root cats globsOf fs contents tf base n
        titleOpt subtitleOpt authorOpt emailOpt clean
      = Except.ok none := by
  obtain ⟨t, ht⟩ := Option.isSome_iff_exists.mp htitle
  have hget : get_files root cats globsOf fs tf n = Except.ok none := by
    unfold get_files
    rw [hmerged]
    rfl
  unfold build_feed
  rw [ht, hget]

/-- C3 witness: one configured category with no matching files. -/
theorem C3_no_candidates_no_write_witness :
    ((feedTitleResolved (str "r") false (fun _ => none) (fun _ => [])
        (some (str "T"))).isSome = true
     ∧ mergedArticles (str "r") [(str "c", Category.FLAT)] (fun _ => [])
        (fun _ => none) = [])
    ∧ build_feed (str "r") [(str "c", Category.FLAT)] (fun _ => [])
        (fun _ => none) (fun _ => []) (fun _ => 0)
        { host := str "example.org", path := str "/" } 10
        (some (str "T")) none none none false
      = Except.ok none :=
  ⟨⟨by decide, by decide⟩,
   C3_no_candidates_no_write (str "r") [(str "c", Category.FLAT)]
     (fun _ => []) (fun _ => none) (fun _ => []) (fun _ => 0)
     { host := str "example.org", path := str "/" } 10
     (some (str "T")) none none none false (by decide) (by decide)⟩

/-- C4 (amended): every candidate returned by discovery is world-readable
(the other-read mode bit is set at discovery time).  Discovery performs no
regular-file check, so the claim's regular-file part fails: see the
counterexample with a matching directory. -/
theorem C4_world_readable_invariant (typ : Category) (fulldir : Str)
    (matched : List Str) (fs : FileSys) :
    ∀ p ∈ collect_articles typ fulldir matched fs,
      is_world_readable fs p.path = true := by
  intro p hp
  unfold collect_articles at hp
  exact (List.mem_filter.mp hp).2

/-- C4 witness: a concrete discovered candidate is world-readable. -/
theorem C4_world_readable_invariant_witness :
    is_world_readable
        (fun p => if p = str "r/c/a.gmi"
          then some { mode := 420, isFile := true } else none)
        (str "r/c/a.gmi") = true :=
  C4_world_readable_invariant Category.FLAT (str "r/c") [str "a.gmi"]
    (fun p => if p = str "r/c/a.gmi"
      then some { mode := 420, isFile := true } else none)
    { path := str "r/c/a.gmi", cat := Category.FLAT } (by decide)

/-- C9: for a `FLAT` category, discovery never returns a path whose base
name is a reserved index name; for a `TREE` category, every returned
candidate has a reserved index base name and stems from a glob match
whose path relative to the category root contains a directory separator
(so the category's own top-level index is never returned). -/
theorem C9_index_exclusion_rules (fulldir : Str) (matched : List Str)
    (fs : FileSys) :
    (∀ p ∈ collect_articles Category.FLAT fulldir matched fs,
      lastComponentL p.path ∉ indexNames)
    ∧ (∀ p ∈ collect_articles Category.TREE fulldir matched fs,
      lastComponentL p.path ∈ indexNames
      ∧ ∃ rel ∈ matched,
          p.path = pathJoin fulldir rel ∧ rel.contains '/' = true) := by
  constructor
  · intro p hp
    unfold collect_articles at hp
    obtain ⟨rel, _, hrel⟩ := List.mem_filterMap.mp (List.mem_filter.mp hp).1
    split at hrel
    · rename_i hcond
      cases Option.some.injEq _ _ ▸ hrel
      rcases hcond with ⟨h1, _⟩ | ⟨_, habs, _⟩
      · exact h1
      · exact absurd habs (by decide)
    · exact absurd hrel (by simp)
  · intro p hp
    unfold collect_articles at hp
    obtain ⟨rel, hmem, hrel⟩ := List.mem_filterMap.mp (List.mem_filter.mp hp).1
    split at hrel
    · rename_i hcond
      cases Option.some.injEq _ _ ▸ hrel
      rcases hcond with ⟨_, habs⟩ | ⟨h1, _, h3⟩
      · exact absurd habs (by decide)
      · exact ⟨h1, rel, hmem, rfl, h3⟩
    · exact absurd hrel (by simp)

/-- C9 witness: a nested tree index is returned and satisfies the index
rules; the corresponding flat discovery refuses index names. -/
theorem C9_index_exclusion_rules_witness :
    lastComponentL (str "r/c/sub/index.gmi") ∈ indexNames
    ∧ ∃ rel ∈ [str "sub/index.gmi"],
        str "r/c/sub/index.gmi" = pathJoin (str "r/c") rel
        ∧ rel.contains '/' = true :=
  (C9_index_exclusion_rules (str "r/c") [str "sub/index.gmi"]
      (fun _ => some { mode := 420, isFile := true })).2
    { path := str "r/c/sub/index.gmi", cat := Category.TREE } (by decide)

/-- The stripping loop agrees with dropping the leading run of `#`
characters whenever at least one other character remains on the line. -/
theorem stripHashes_eq_dropWhile : ∀ l : Str,
    l.dropWhile (fun c => c == '#') ≠ [] →
    stripHashes l = some (l.dropWhile (fun c => c == '#')) := by
  intro l
  induction l with
  | nil => intro h; exact absurd rfl h
  | cons c cs ih =>
    intro h
    by_cases hc : c = '#'
    · subst hc
      have hd : ('#' :: cs).dropWhile (fun c => c == '#')
          = cs.dropWhile (fun c => c == '#') := by
        simp [List.dropWhile_cons]
      rw [hd] at h ⊢
      unfold stripHashes
      rw [if_pos rfl]
      exact ih h
    · have hd : (c :: cs).dropWhile (fun c => c == '#') = c :: cs := by
        simp [List.dropWhile_cons, hc]
      rw [hd]
      unfold stripHashes
      rw [if_neg hc]

/-- C5 (amended): for every file whose first line beginning with `#`
contains at least one character that is not `#`, extraction returns that
line with the leading markers dropped and surrounding whitespace trimmed,
ignoring everything after it.  (A first heading line consisting solely of
`#` characters instead panics: see the counterexample.) -/
theorem C5_first_heading_extraction (pre post : List Str) (heading d : Str)
    (hpre : ∀ l ∈ pre, startsHash l = false)
    (hh : startsHash heading = true)
    (hnz : heading.dropWhile (fun c => c == '#') ≠ []) :
    extract_first_heading (pre ++ heading :: post) d
      = some (trimStr (heading.dropWhile (fun c => c == '#'))) := by
  induction pre with
  | nil =>
    rw [List.nil_append]
    unfold extract_first_heading
    rw [hh, if_pos rfl, stripHashes_eq_dropWhile heading hnz]
  | cons a pre ih =>
    rw [List.cons_append]
    unfold extract_first_heading
    rw [hpre a (List.mem_cons_self a pre)]
    simp only [Bool.false_eq_true, if_false]
    exact ih (fun l hl => hpre l (List.mem_cons_of_mem a hl))

/-- C5 witness: the claim's own example, with surrounding content. -/
theorem C5_first_heading_extraction_witness :
    extract_first_heading
        [str "text", str "# Hello World", str "## Later"] (str "zzz")
      = some (str "Hello World") :=
  (C5_first_heading_extraction [str "text"] [str "## Later"]
    (str "# Hello World") (str "zzz") (by decide) (by decide)
    (by decide)).trans (by decide)

/-- No Gregorian month has more than 31 days. -/
theorem daysInMonth_le (y m : Nat) : daysInMonth y m ≤ 31 := by
  unfold daysInMonth
  split
  · split <;> omega
  · split <;> omega

/-- The ten-character rendering `YYYY-MM-DD` of a date. -/
def dateChars (y m d : Nat) : Str :=
  [digitChar (y / 1000), digitChar (y / 100 % 10), digitChar (y / 10 % 10),
   digitChar (y % 10), '-', digitChar (m / 10), digitChar (m % 10), '-',
   digitChar (d / 10), digitChar (d % 10)]

/-- A digit character is a digit. -/
theorem digitChar_isDigit {k : Nat} (h : k < 10) :
    (digitChar k).isDigit = true := by
  interval_cases k <;> decide

/-- Reading back a digit character. -/
theorem toDigit_digitChar {k : Nat} (h : k < 10) :
    toDigit (digitChar k) = k := by
  interval_cases k <;> decide

/-- C6: whenever the date-source name (the file's own base name for
`FLAT`, the parent directory's name for `TREE`) begins with the rendering
of a calendar date `y-m-d`, the computed updated time is exactly midnight
UTC of that date, for every choice of filesystem time function — the
filesystem is never consulted. -/
theorem C6_date_in_name_precedence (filepath : Str) (cat : Category)
    (y m d : Nat) (rest : Str)
    (hname : dateSourceName filepath cat = dateChars y m d ++ rest)
    (hy : y < 10000) (hm1 : 1 ≤ m) (hm2 : m ≤ 12) (hd1 : 1 ≤ d)
    (hd2 : d ≤ daysInMonth y m) :
    ∀ tf : Str → Nat,
      get_update_time filepath tf cat = some (dateMidnightUtc y m d) := by
  intro tf
  unfold get_update_time
  rw [hname]
  have hy3 : y / 1000 < 10 := by omega
  have hy2 : y / 100 % 10 < 10 := by omega
  have hy1 : y / 10 % 10 < 10 := by omega
  have hy0 : y % 10 < 10 := by omega
  have hmm1 : m / 10 < 10 := by omega
  have hmm0 : m % 10 < 10 := by omega
  have hdle : daysInMonth y m ≤ 31 := daysInMonth_le y m
  have hdd1 : d / 10 < 10 := by omega
  have hdd0 : d % 10 < 10 := by omega
  have hmatch : rfc3339Match (dateChars y m d ++ rest) = true := by
    unfold dateChars rfc3339Match
    rw [List.cons_append, List.cons_append, List.cons_append,
      List.cons_append, List.cons_append, List.cons_append,
      List.cons_append, List.cons_append, List.cons_append,
      List.cons_append]
    simp [digitChar_isDigit, hy3, hy2, hy1, hy0, hmm1, hmm0, hdd1, hdd0]
  rw [hmatch, if_pos rfl]
  unfold dateChars parseDateMidnight
  rw [List.cons_append, List.cons_append, List.cons_append,
    List.cons_append, List.cons_append, List.cons_append,
    List.cons_append, List.cons_append, List.cons_append,
    List.cons_append]
  dsimp only
  rw [toDigit_digitChar hy3, toDigit_digitChar hy2, toDigit_digitChar hy1,
    toDigit_digitChar hy0, toDigit_digitChar hmm1, toDigit_digitChar hmm0,
    toDigit_digitChar hdd1, toDigit_digitChar hdd0]
  have ey : y / 1000 * 1000 + y / 100 % 10 * 100 + y / 10 % 10 * 10 + y % 10
      = y := by omega
  have em : m / 10 * 10 + m % 10 = m := by omega
  have ed : d / 10 * 10 + d % 10 = d := by omega
  rw [ey, em, ed]
  rw [if_pos ⟨hm1, hm2, hd1, hd2⟩]

/-- C6 witness: the claim's example file name, with a filesystem time
function that disagrees wildly with the date. -/
theorem C6_date_in_name_precedence_witness :
    dateSourceName (str "2022-01-02-note.gmi") Category.FLAT
      = dateChars 2022 1 2 ++ str "-note.gmi"
    ∧ get_update_time (str "2022-01-02-note.gmi") (fun _ => 999)
        Category.FLAT = some 1641081600 :=
  ⟨by decide,
   (C6_date_in_name_precedence (str "2022-01-02-note.gmi") Category.FLAT
     2022 1 2 (str "-note.gmi") (by decide) (by decide) (by decide)
     (by decide) (by decide) (by decide) (fun _ => 999)).trans (by decide)⟩

/-- Taking while a predicate holds skips past a prefix it holds on. -/
theorem gem_takeWhile_append (p : Char → Bool) :
    ∀ xs ys : Str, (∀ x ∈ xs, p x = true) →
      (xs ++ ys).takeWhile p = xs ++ ys.takeWhile p := by
  intro xs ys h
  induction xs with
  | nil => simp
  | cons a xs ih =>
    rw [List.cons_append, List.takeWhile_cons,
      h a (List.mem_cons_self a xs), if_pos rfl, List.cons_append]
    rw [ih (fun x hx => h x (List.mem_cons_of_mem a hx))]

/-- Dropping while a predicate holds skips past a prefix it holds on. -/
theorem gem_dropWhile_append (p : Char → Bool) :
    ∀ xs ys : Str, (∀ x ∈ xs, p x = true) →
      (xs ++ ys).dropWhile p = ys.dropWhile p := by
  intro xs ys h
  induction xs with
  | nil => simp
  | cons a xs ih =>
    rw [List.cons_append, List.dropWhile_cons,
      h a (List.mem_cons_self a xs), if_pos rfl]
    rw [ih (fun x hx => h x (List.mem_cons_of_mem a hx))]

/-- The last component after an explicit final separator. -/
theorem lastComponent_append (a b : Str) (hb : '/' ∉ b) :
    lastComponentL (a ++ '/' :: b) = b := by
  unfold lastComponentL
  rw [List.reverse_append, List.reverse_cons, List.append_assoc]
  rw [gem_takeWhile_append _ b.reverse _ ?hall]
  case hall =>
    intro x hx
    exact decide_eq_true (fun heq =>
      hb (heq ▸ List.mem_reverse.mp hx))
  have h2 : (['/'] ++ a.reverse).takeWhile (fun c => decide (c ≠ '/'))
      = [] := by
    simp [List.takeWhile_cons]
  rw [h2, List.append_nil, List.reverse_reverse]

/-- The parent before an explicit final separator. -/
theorem parentOf_append (a b : Str) (hb : '/' ∉ b) :
    parentOfL (a ++ '/' :: b) = a := by
  unfold parentOfL
  rw [List.reverse_append, List.reverse_cons, List.append_assoc]
  rw [gem_dropWhile_append _ b.reverse _ ?hall]
  case hall =>
    intro x hx
    exact decide_eq_true (fun heq =>
      hb (heq ▸ List.mem_reverse.mp hx))
  have h2 : (['/'] ++ a.reverse).dropWhile (fun c => decide (c ≠ '/'))
      = '/' :: a.reverse := by
    simp [List.dropWhile_cons]
  rw [h2]
  exact List.reverse_reverse a

/-- Splitting a string at its last separator. -/
theorem split_last_slash : ∀ rel : Str, '/' ∈ rel →
    ∃ r₁ r₂, rel = r₁ ++ '/' :: r₂ ∧ '/' ∉ r₂ := by
  intro rel h
  induction rel with
  | nil => cases h
  | cons c cs ih =>
    by_cases hcs : '/' ∈ cs
    · obtain ⟨r₁, r₂, heq, hnr⟩ := ih hcs
      exact ⟨c :: r₁, r₂, by rw [List.cons_append, ← heq], hnr⟩
    · have hc : c = '/' := by
        rcases List.mem_cons.mp h with h1 | h2
        · exact h1.symm
        · exact absurd h2 hcs
      exact ⟨[], cs, by rw [hc, List.nil_append], hcs⟩

/-- C7 (amended): when the base URL path is the root `/` (as in the
claim's examples), the entry URL is the authority root followed by the
file's root-relative path, and it agrees with the spec-worded join of the
relative path; and for every populated entry the id string equals the
link URL.  (For base URLs with a deeper path the code's leading-slash
join discards the base path: see the counterexample.) -/
theorem C7_url_construction (host root rel : Str) (hne : rel ≠ [])
    (hhead : rel.head? ≠ some '/') :
    entryUrlOfFile (root ++ '/' :: rel) root
        { host := host, path := str "/" }
      = { host := host, path := '/' :: rel }
    ∧ entryUrlOfFile (root ++ '/' :: rel) root
        { host := host, path := str "/" }
      = specEntryUrl (root ++ '/' :: rel) root
        { host := host, path := str "/" }
    ∧ ∀ (filepath : Str) (base : Url) (tf : Str → Nat) (root2 : Str)
        (cat : Category) (clean : Bool) (contents : Str → List Str)
        (e : Entry),
        populate_entry_from_file filepath base tf root2 cat clean contents
          = some e → e.id = e.linkHref := by
  obtain ⟨c, cs, rfl⟩ := List.exists_cons_of_ne_nil hne
  have hc : c ≠ '/' := by simpa using hhead
  have hsws : startsWithSlash (c :: cs) = false := by
    simp [startsWithSlash, hc]
  have hspec : specEntryUrl (root ++ '/' :: (c :: cs)) root
      { host := host, path := str "/" }
      = { host := host, path := '/' :: (c :: cs) } := by
    unfold specEntryUrl
    rw [List.drop_left]
    have hdw : ('/' :: (c :: cs)).dropWhile (fun x => x = '/')
        = c :: cs := by
      simp [List.dropWhile_cons, hc]
    rw [hdw]
    unfold urlJoin
    rw [hsws]
    rfl
  have hmain : entryUrlOfFile (root ++ '/' :: (c :: cs)) root
      { host := host, path := str "/" }
      = { host := host, path := '/' :: (c :: cs) } := by
    by_cases hsl : '/' ∈ (c :: cs)
    · obtain ⟨r₁, r₂, heq, hnr⟩ := split_last_slash (c :: cs) hsl
      have hfp : root ++ '/' :: (c :: cs) = (root ++ '/' :: r₁) ++ '/' :: r₂ := by
        rw [heq, ← List.cons_append, ← List.append_assoc]
      have hpar : parentOfL (root ++ '/' :: (c :: cs)) = root ++ '/' :: r₁ := by
        rw [hfp]
        exact parentOf_append _ _ hnr
      have hne2 : parentOfL (root ++ '/' :: (c :: cs)) ≠ root := by
        rw [hpar]
        intro habs
        have hlen := congrArg List.length habs
        simp [List.length_append] at hlen
      unfold entryUrlOfFile
      rw [if_neg hne2, List.drop_left]
      unfold urlJoin
      rfl
    · have hpar : parentOfL (root ++ '/' :: (c :: cs)) = root :=
        parentOf_append _ _ hsl
      have hlast : lastComponentL (root ++ '/' :: (c :: cs)) = c :: cs :=
        lastComponent_append _ _ hsl
      unfold entryUrlOfFile
      rw [if_pos hpar, hlast]
      unfold urlJoin
      rw [hsws]
      rfl
  refine ⟨hmain, hmain.trans hspec.symm, ?_⟩
  intro fp base tf root2 cat clean contents e h
  unfold populate_entry_from_file at h
  split at h
  · exact absurd h (by simp)
  · split at h
    · exact absurd h (by simp)
    · rw [Option.some.injEq] at h
      subst h
      rfl

/-- C7 witness: the claim's example `<root>/news/post.gmi` with base
`gemini://example.org/`. -/
theorem C7_url_construction_witness :
    entryUrlOfFile (str "/site/news/post.gmi") (str "/site")
        { host := str "example.org", path := str "/" }
      = { host := str "example.org", path := str "/news/post.gmi" } :=
  (C7_url_construction (str "example.org") (str "/site")
    (str "news/post.gmi") (by decide) (by decide)).1.trans (by decide)

/-- The loop index accumulator only shifts the result. -/
theorem firstNonSep_shift : ∀ (cs : Str) (i : Nat),
    firstNonSep cs i = (firstNonSep cs 0).map (fun k => k + i) := by
  intro cs
  induction cs with
  | nil => intro i; rfl
  | cons c rest ih =>
    intro i
    unfold firstNonSep
    by_cases hc : isSepChar c = true
    · rw [if_pos hc, if_pos hc, ih (i + 1), ih 1]
      cases firstNonSep rest 0 with
      | none => rfl
      | some k => simp; omega
    · rw [if_neg hc, if_neg hc]
      simp

/-- When the loop exhausts the tail, the tail is all separators. -/
theorem firstNonSep_none_all_sep : ∀ cs : Str,
    firstNonSep cs 0 = none → cs.dropWhile isSepChar = [] := by
  intro cs
  induction cs with
  | nil => intro _; rfl
  | cons c rest ih =>
    intro h
    unfold firstNonSep at h
    by_cases hc : isSepChar c = true
    · rw [if_pos hc] at h
      rw [List.dropWhile_cons, hc, if_pos rfl]
      apply ih
      rw [firstNonSep_shift rest 1] at h
      cases hrest : firstNonSep rest 0 with
      | none => rfl
      | some k => rw [hrest] at h; simp at h
    · rw [if_neg hc] at h
      exact absurd h (by simp)

/-- When the loop finds a non-separator at offset `k`, dropping `k`
characters is exactly dropping the separator run. -/
theorem firstNonSep_drop : ∀ (cs : Str) (k : Nat),
    firstNonSep cs 0 = some k → cs.drop k = cs.dropWhile isSepChar := by
  intro cs
  induction cs with
  | nil => intro k h; exact absurd h (by simp [firstNonSep])
  | cons c rest ih =>
    intro k h
    unfold firstNonSep at h
    by_cases hc : isSepChar c = true
    · rw [if_pos hc, firstNonSep_shift rest 1] at h
      cases hrest : firstNonSep rest 0 with
      | none => rw [hrest] at h; exact absurd h (by simp)
      | some k0 =>
        rw [hrest] at h
        simp at h
        rw [← h, List.drop_succ_cons, List.dropWhile_cons, hc, if_pos rfl]
        exact ih k0 hrest
    · rw [if_neg hc, Option.some.injEq] at h
      rw [← h, List.drop_zero, List.dropWhile_cons, if_neg hc]

/-- When some line has a heading, the extracted title does not depend on
the default. -/
theorem extract_first_heading_indep : ∀ (lines : List Str) (d₁ d₂ : Str),
    lines.any startsHash = true →
    extract_first_heading lines d₁ = extract_first_heading lines d₂ := by
  intro lines
  induction lines with
  | nil => intro d₁ d₂ h; exact absurd h (by simp)
  | cons l ls ih =>
    intro d₁ d₂ h
    cases hl : startsHash l with
    | true =>
      unfold extract_first_heading
      rw [hl, if_pos rfl, if_pos rfl]
    | false =>
      unfold extract_first_heading
      rw [hl]
      simp only [Bool.false_eq_true, if_false]
      apply ih
      rw [List.any_cons, hl] at h
      simpa using h

/-- C10 (amended): the default title strips the date stamp together with
the following run of separator characters whenever a non-separator
character follows them (when the tail is all separators the code keeps
it: see the counterexample); enabling clean-title mode replaces
underscores by spaces in the computed default; and the substitution never
touches an explicitly authored heading — with a heading present the
populated entry is identical whether or not clean-title is enabled. -/
theorem C10_default_title_rules :
    (∀ s : Str, rfc3339Match s = true →
      (s.drop 10).dropWhile isSepChar ≠ [] →
      remove_rfc3339_date s = (s.drop 10).dropWhile isSepChar)
    ∧ (∀ (cat : Category) (filepath : Str),
      defaultTitleOf cat filepath true
        = replaceUnderscores (defaultTitleOf cat filepath false))
    ∧ (∀ (filepath : Str) (base : Url) (tf : Str → Nat) (root : Str)
        (cat : Category) (contents : Str → List Str),
      (contents filepath).any startsHash = true →
      populate_entry_from_file filepath base tf root cat true contents
        = populate_entry_from_file filepath base tf root cat false contents) := by
  refine ⟨?_, ?_, ?_⟩
  · intro s hm hnz
    unfold remove_rfc3339_date
    rw [hm, if_pos rfl]
    cases hfd : firstNonSep (s.drop 10) 0 with
    | none => exact absurd (firstNonSep_none_all_sep _ hfd) hnz
    | some i =>
      dsimp only
      rw [← firstNonSep_drop _ i hfd, List.drop_drop, Nat.add_comm 10 i]
  · intro cat filepath
    cases cat <;> rfl
  · intro fp base tf root cat contents hhead
    cases hX : get_update_time fp tf cat with
    | none => simp only [populate_entry_from_file, hX]
    | some upd =>
      simp only [populate_entry_from_file, hX]
      rw [extract_first_heading_indep (contents fp)
        (defaultTitleOf cat fp true) (defaultTitleOf cat fp false) hhead]

/-- C10 witness: the claim's two examples and a heading that clean-title
mode leaves alone. -/
theorem C10_default_title_rules_witness :
    remove_rfc3339_date (str "2023-05-01-my-post") = str "my-post"
    ∧ defaultTitleOf Category.FLAT (str "r/c/2023-05-01_my_post.gmi") true
      = str "my post"
    ∧ populate_entry_from_file (str "r/c/a.gmi")
        { host := str "example.org", path := str "/" } (fun _ => 0)
        (str "r") Category.FLAT true (fun _ => [str "# My_Title"])
      = populate_entry_from_file (str "r/c/a.gmi")
        { host := str "example.org", path := str "/" } (fun _ => 0)
        (str "r") Category.FLAT false (fun _ => [str "# My_Title"]) :=
  ⟨(C10_default_title_rules.1 (str "2023-05-01-my-post") (by decide)
      (by decide)).trans (by decide),
   (C10_default_title_rules.2.1 Category.FLAT
      (str "r/c/2023-05-01_my_post.gmi")).trans (by decide),
   C10_default_title_rules.2.2 (str "r/c/a.gmi")
     { host := str "example.org", path := str "/" } (fun _ => 0)
     (str "r") Category.FLAT (fun _ => [str "# My_Title"]) (by decide)⟩

/-- C10 counterexample: the flat file `2023-05-01_.gmi` has no heading;
its stem is the date followed only by a separator.  The claim says the
date stamp and the following separator characters are stripped (leaving
the empty title), but the loop's exhausted-iterator arm keeps the
separators: the default title is `_`. -/
theorem C10_separator_only_tail_kept :
    defaultTitleOf Category.FLAT (str "r/c/2023-05-01_.gmi") false = str "_"
    ∧ str "_" ≠ str "" := ⟨rfl, by decide⟩

end GemAtom
